import Mathlib

/-
Verification development for the podsync-companion background worker and feed
engine.  The definitions below are shallow embeddings of the Python source:
app/video_id.py, app/worker.py, app/models.py.  Strings are modelled as Lean
strings (lists of characters), datetimes as integers on a totally ordered
timeline, and regular-expression searches as explicit leftmost scans whose
semantics are derived from the concrete patterns in the source.
-/

namespace Podsync

/-! ## VideoID extractor (app/video_id.py) -/

/-- Characters of the id alphabet in the pattern A-Za-z0-9_- .
Lean's Char.isAlphanum is ASCII-only, matching the Python character class. -/
def isIdChar (c : Char) : Bool := c.isAlphanum || c == '_' || c == '-'

/-- Python str.strip: drop whitespace from both ends (ASCII whitespace). -/
def pyStrip (cs : List Char) : List Char :=
  ((cs.dropWhile Char.isWhitespace).reverse.dropWhile Char.isWhitespace).reverse

/-- Maximal run of id characters at the head of the list. -/
def idRun : List Char → List Char
  | [] => []
  | c :: cs => if isIdChar c then c :: idRun cs else []

/-- Greedy capture for a regex group of 6 to 20 id characters at this
position: succeeds when at least 6 id characters follow, takes at most 20. -/
def captureId (cs : List Char) : Option (List Char) :=
  let r := idRun cs
  if 6 ≤ r.length then some (r.take 20) else none

/-- Match a literal at the head of the input, returning the remainder. -/
def dropLit : List Char → List Char → Option (List Char)
  | [], cs => some cs
  | _, [] => none
  | l :: ls, c :: cs => if l == c then dropLit ls cs else none

/-- Leftmost regex search: try the position matcher at every start
position, from the left, and return its first result. -/
def scanWith {α : Type} (f : List Char → Option α) : List Char → Option α
  | [] => none
  | c :: cs =>
    match f (c :: cs) with
    | some g => some g
    | none => scanWith f cs

/-- One position of the v= query parameter pattern: a question mark or
ampersand, the letters v and equals, then the 6-to-20 id capture. -/
def vParamAt (cs : List Char) : Option (List Char) :=
  match cs with
  | [] => none
  | c :: rest =>
    if c == '?' || c == '&' then
      match dropLit "v=".data rest with
      | some r => captureId r
      | none => none
    else none

/-- One position of a literal followed by the 6-to-20 id capture. -/
def litCaptureAt (lit : List Char) (cs : List Char) : Option (List Char) :=
  match dropLit lit cs with
  | some rest => captureId rest
  | none => none

/-- One position of the youtube.com shorts, live or embed path pattern. -/
def ytPathCaptureAt (cs : List Char) : Option (List Char) :=
  match dropLit "youtube.com/".data cs with
  | none => none
  | some rest =>
    match dropLit "shorts/".data rest with
    | some r2 => captureId r2
    | none =>
      match dropLit "live/".data rest with
      | some r2 => captureId r2
      | none =>
        match dropLit "embed/".data rest with
        | some r2 => captureId r2
        | none => none

/-- Stage 1 of the extractor: the three known URL shapes, in source order. -/
def urlStage (text : List Char) : Option (List Char) :=
  match scanWith vParamAt text with
  | some g => some g
  | none =>
    match scanWith (litCaptureAt "youtu.be/".data) text with
    | some g => some g
    | none => scanWith ytPathCaptureAt text

/-- Python text.split of the query string: keep everything before the first
question mark. -/
def queryStrip (cs : List Char) : List Char :=
  cs.takeWhile (fun c => !(c == '?'))

/-- Split a character list at every character satisfying the predicate,
keeping empty pieces (single-character separators). -/
def splitOnPred (p : Char → Bool) : List Char → List (List Char)
  | [] => [[]]
  | c :: cs =>
    let r := splitOnPred p cs
    if p c then [] :: r
    else
      match r with
      | [] => [[c]]
      | h :: t => (c :: h) :: t

/-- Pathlib name: the last path component, with empty and single-dot
components dropped, as pathlib's parsing does. -/
def pathNameOf (cs : List Char) : List Char :=
  let comps := (splitOnPred (fun c => c == '/') cs).filter
    (fun p => !p.isEmpty && !(p == ['.']))
  (comps.getLast?).getD []

/-- Pathlib stem on a bare file name: strip the suffix that starts at the
last dot, provided that dot is neither the first nor the last character. -/
def pathStemOf (cs : List Char) : List Char :=
  let rev := cs.reverse
  let before := rev.takeWhile (fun c => !(c == '.'))
  if before.length == cs.length then cs
  else if before.isEmpty then cs
  else
    let restRev := rev.drop (before.length + 1)
    if restRev.isEmpty then cs else restRev.reverse

/-- Stage 2a: if the stem has at least 11 characters and its trailing 11
characters all lie in the id alphabet, they are the id. -/
def tail11Stage (stem : List Char) : Option (List Char) :=
  if 11 ≤ stem.length then
    let t := stem.drop (stem.length - 11)
    if t.all isIdChar then some t else none
  else none

/-- One position of the trailing underscore-id-dot-extension file pattern:
an underscore, a run of 6 to 20 id characters, a dot, then a nonempty
dot-free extension reaching the end of the string. -/
def fnSuffixAt (cs : List Char) : Option (List Char) :=
  match cs with
  | [] => none
  | c :: rest =>
    if c = '_' then
      let r := idRun rest
      if 6 ≤ r.length ∧ r.length ≤ 20 then
        match rest.drop r.length with
        | [] => none
        | d :: tail =>
          if d = '.' ∧ tail ≠ [] ∧ (∀ x ∈ tail, x ≠ '.') then some r
          else none
      else none
    else none

/-- Leftmost search for the trailing underscore-id-dot-extension pattern. -/
def fnSuffixStage (cs : List Char) : Option (List Char) :=
  scanWith fnSuffixAt cs

/-- Separators of the stem token scan: underscore, hyphen, dot, space. -/
def isSepChar (c : Char) : Bool := c == '_' || c == '-' || c == '.' || c == ' '

/-- Nonempty tokens of the stem after splitting on separator runs. -/
def stemTokens (stem : List Char) : List (List Char) :=
  (splitOnPred isSepChar stem).filter (fun p => !p.isEmpty)

/-- Full match of the general id pattern: 6 to 20 id characters. -/
def generalIdOk (cs : List Char) : Bool :=
  cs.all isIdChar && decide (6 ≤ cs.length) && decide (cs.length ≤ 20)

/-- Stage 2c: the last stem token that fully matches the general id pattern. -/
def stemTokenStage (stem : List Char) : Option (List Char) :=
  (stemTokens stem).reverse.find? generalIdOk

/-- Stage 3: the whole input fully matches the general id pattern. -/
def wholeStage (text : List Char) : Option (List Char) :=
  if generalIdOk text then some text else none

/-- The extractor of app/video_id.py on character lists: URL shapes, then
file-name heuristics, then the whole-string fallback, else empty. -/
def extractVideoIdCore (value : List Char) : List Char :=
  let text := pyStrip value
  if text.isEmpty then []
  else
    match urlStage text with
    | some g => g
    | none =>
      let filePart := pathNameOf (queryStrip text)
      let stem := pathStemOf filePart
      match tail11Stage stem with
      | some t => t
      | none =>
        match fnSuffixStage filePart with
        | some g => g
        | none =>
          match stemTokenStage stem with
          | some p => p
          | none =>
            match wholeStage text with
            | some t => t
            | none => []

/-- extract_video_id of app/video_id.py. -/
def extract_video_id (s : String) : String :=
  String.mk (extractVideoIdCore s.data)

/-- The simplified private extractor inside app/worker.py: only the v=
query parameter, the youtu.be path, and the whole-string pattern. -/
def workerExtractCore (value : List Char) : List Char :=
  let text := pyStrip value
  if text.isEmpty then []
  else
    match scanWith vParamAt text with
    | some g => g
    | none =>
      match scanWith (litCaptureAt "youtu.be/".data) text with
      | some g => g
      | none =>
        match wholeStage text with
        | some t => t
        | none => []

/-- The worker's private extract_video_id on strings. -/
def worker_extract_video_id (s : String) : String :=
  String.mk (workerExtractCore s.data)

/-! ## Episode number extraction (app/worker.py) -/

/-- Word characters of a regex word boundary (ASCII). -/
def isWordChar (c : Char) : Bool := c.isAlphanum || c == '_'

/-- Case-insensitive literal match at the head of the input, the literal
given in lowercase; returns the remainder. -/
def dropLitCI : List Char → List Char → Option (List Char)
  | [], cs => some cs
  | _, [] => none
  | l :: ls, c :: cs => if c.toLower == l then dropLitCI ls cs else none

/-- Decimal value of a digit list. -/
def digitsToNat (ds : List Char) : Nat :=
  ds.foldl (fun acc c => acc * 10 + (c.toNat - '0'.toNat)) 0

/-- One position of the episode pattern: the word episode or edition
(case-insensitive), optional whitespace, an optional hash, optional
whitespace, one to five digits, then a word boundary. -/
def epAt (cs : List Char) : Option Nat :=
  let afterLit :=
    match dropLitCI "episode".data cs with
    | some r => some r
    | none => dropLitCI "edition".data cs
  match afterLit with
  | none => none
  | some r =>
    let r1 := r.dropWhile Char.isWhitespace
    let r2 :=
      match r1 with
      | '#' :: t => t.dropWhile Char.isWhitespace
      | _ => r1
    let ds := r2.takeWhile Char.isDigit
    let rest := r2.drop ds.length
    if ds.isEmpty then none
    else if ds.length ≤ 5 then
      match rest with
      | [] => some (digitsToNat ds)
      | c :: _ => if isWordChar c then none else some (digitsToNat ds)
    else none

/-- The private extract_episode_number of app/worker.py. -/
def extract_episode_number (s : String) : Option Nat :=
  let text := pyStrip s.data
  if text.isEmpty then none else scanWith epAt text

/-! ## Feed items, merge and sort (app/worker.py, regenerate_merged_feeds) -/

/-- A rendered feed entry, as the FeedItem dataclass of app/worker.py.
Publish timestamps live on a totally ordered integer timeline. -/
structure FeedItem where
  guid : String
  dedupeKey : String
  pubDate : Int
  episodeNumber : Option Nat
  xml : String
  descriptionLen : Nat
deriving Repr, DecidableEq

/-- Lookup by dedupe key in the insertion-ordered dictionary model. -/
def lookupKey : List (String × FeedItem) → String → Option FeedItem
  | [], _ => none
  | kv :: rest, k => if kv.fst = k then some kv.snd else lookupKey rest k

/-- Replace the value stored at a key, keeping the dictionary order. -/
def setKey (acc : List (String × FeedItem)) (k : String) (it : FeedItem) :
    List (String × FeedItem) :=
  acc.map (fun kv => if kv.fst = k then (kv.fst, it) else kv)

/-- One step of the merge loop over by_guid: insert a new key at the end;
on an existing key replace the stored item when the new one has a strictly
longer description, or an equal description length and a strictly later
publish date. -/
def upsertMerged (acc : List (String × FeedItem)) (it : FeedItem) :
    List (String × FeedItem) :=
  match lookupKey acc it.dedupeKey with
  | none => acc ++ [(it.dedupeKey, it)]
  | some ex =>
    if ex.descriptionLen < it.descriptionLen then setKey acc it.dedupeKey it
    else if it.descriptionLen = ex.descriptionLen ∧ ex.pubDate < it.pubDate then
      setKey acc it.dedupeKey it
    else acc

/-- The by_guid dictionary built by the merge loop. -/
def mergeByKey (items : List FeedItem) : List (String × FeedItem) :=
  items.foldl upsertMerged []

/-- The values of the by_guid dictionary, in insertion order. -/
def mergedValues (items : List FeedItem) : List FeedItem :=
  (mergeByKey items).map Prod.snd

/-- The has_episode component of the sort key. -/
def hasEpisode (it : FeedItem) : Nat := if it.episodeNumber.isSome then 1 else 0

/-- The episode_num component of the sort key: Python's or operator maps a
missing number, and also an explicit zero, to minus one. -/
def episodeKey (it : FeedItem) : Int :=
  match it.episodeNumber with
  | none => -1
  | some n => if n = 0 then -1 else (n : Int)

/-- The sort key tuple of regenerate_merged_feeds, compared
lexicographically as Python compares tuples; the guid string is compared
as its character list, which is Python's code-point string order. -/
def sortKey (it : FeedItem) : Int ×ₗ (Nat ×ₗ (Int ×ₗ List Char)) :=
  toLex (it.pubDate, toLex (hasEpisode it, toLex (episodeKey it, it.guid.data)))

/-- The pairwise order of the reverse sort: an item precedes another when
its key is at least as large. -/
def mergedDescLE (a b : FeedItem) : Prop := sortKey b ≤ sortKey a

instance : DecidableRel mergedDescLE := fun a b =>
  inferInstanceAs (Decidable (sortKey b ≤ sortKey a))

instance : IsTotal FeedItem mergedDescLE :=
  ⟨fun a b => (le_total (sortKey b) (sortKey a)).imp id id⟩

instance : IsTrans FeedItem mergedDescLE :=
  ⟨fun _ _ _ h1 h2 => le_trans h2 h1⟩

/-- Python sorted with reverse set: the stable descending sort by key. -/
def sortMergedDesc (l : List FeedItem) : List FeedItem :=
  l.insertionSort mergedDescLE

/-- The merged, deduplicated, sorted item list of one channel. -/
def mergeAndSort (podsyncItems manualItems : List FeedItem) : List FeedItem :=
  sortMergedDesc (mergedValues (podsyncItems ++ manualItems))

/-- The dedupe key computed in _load_podsync_feeds: the worker's private
extractor on the guid, then on the link, then the raw guid text. -/
def workerDedupeKey (guid link : String) : String :=
  let a := worker_extract_video_id guid
  if a ≠ "" then a
  else
    let b := worker_extract_video_id link
    if b ≠ "" then b else guid

/-- The data of one third-party feed item relevant to dedupe-key
extraction: the guid text, the link text, the enclosure URL, every child
element's text and url, href or src attribute values, and the item's full
serialized XML. -/
structure XmlItemModel where
  guidText : String
  linkText : String
  enclosureUrl : String
  childValues : List String
  serializedXml : String
deriving Repr, DecidableEq

/-- First nonempty id produced by the full extractor over a candidate list. -/
def firstNonemptyId (cands : List String) : String :=
  match cands.find? (fun c => !(extract_video_id c).isEmpty) with
  | some c => extract_video_id c
  | none => ""

/-- Dedupe key as the specification words it (section 4.5 step 1, claim C5):
try the guid, the link, the enclosure URL, every child value, then the
serialized XML, each through the section 4.1 extractor; if no id is found,
fall back to the raw guid text. -/
def specDedupeKey (it : XmlItemModel) : String :=
  let r := firstNonemptyId
    ([it.guidText, it.linkText, it.enclosureUrl] ++ it.childValues ++ [it.serializedXml])
  if r = "" then it.guidText else r

/-! ## Filenames and destination paths (app/worker.py) -/

/-- A calendar date, rendered by strftime as year-month-day. -/
structure Date where
  year : Nat
  month : Nat
  day : Nat
deriving Repr, DecidableEq

/-- Zero-padded two-digit rendering. -/
def pad2 (n : Nat) : String := if n < 10 then "0" ++ toString n else toString n

/-- Zero-padded four-digit rendering. -/
def pad4 (n : Nat) : String :=
  if n < 10 then "000" ++ toString n
  else if n < 100 then "00" ++ toString n
  else if n < 1000 then "0" ++ toString n
  else toString n

/-- strftime with the year-month-day format. -/
def formatDate (d : Date) : String :=
  pad4 d.year ++ "-" ++ pad2 d.month ++ "-" ++ pad2 d.day

/-- Characters kept by slugify_title: letters, digits, dot, underscore,
space, hyphen. -/
def slugAllowed (c : Char) : Bool :=
  c.isAlphanum || c == '.' || c == '_' || c == ' ' || c == '-'

/-- Replace every maximal whitespace run by a single underscore. -/
def collapseWsAux : Bool → List Char → List Char
  | _, [] => []
  | inWs, c :: cs =>
    if c.isWhitespace then
      if inWs then collapseWsAux true cs else '_' :: collapseWsAux true cs
    else c :: collapseWsAux false cs

/-- Whitespace runs collapsed to underscores, from outside a run. -/
def collapseWs (cs : List Char) : List Char := collapseWsAux false cs

/-- slugify_title of app/worker.py: drop disallowed characters, strip,
collapse whitespace runs to underscores, cut to 150 characters, and fall
back to the word untitled when empty. -/
def slugify_title (value : String) : String :=
  let cleaned := pyStrip (value.data.filter slugAllowed)
  let r := (collapseWs cleaned).take 150
  if r.isEmpty then "untitled" else String.mk r

/-- build_filename of app/worker.py: the publish date, or today when none,
then the slugified title, the video id, and the extension. -/
def build_filename (publishedAt : Option Date) (today : Date)
    (title : String) (ext : String) (videoId : String) : String :=
  formatDate (publishedAt.getD today) ++ "_" ++ slugify_title title
    ++ "_" ++ videoId ++ "." ++ ext

/-- The numbered collision candidate: the stem, an underscore, the number,
then the suffix.  Paths are modelled relative to the fixed parent directory. -/
def destCandidate (stem suffix : String) (i : Nat) : String :=
  stem ++ "_" ++ toString i ++ suffix

/-- The collision loop of resolve_dest_path: try the numbered candidates in
order, as many as the fuel allows. -/
def findFree (occupied : String → Bool) (stem suffix : String) :
    Nat → Nat → Option String
  | _, 0 => none
  | i, fuel + 1 =>
    if !occupied (destCandidate stem suffix i) then
      some (destCandidate stem suffix i)
    else findFree occupied stem suffix (i + 1) fuel

/-- resolve_dest_path of app/worker.py.  The occupied predicate merges the
exists and lexists checks of the source; nowTs is the Unix timestamp used
by the final fallback.  The base path is stem plus suffix; numbered
candidates run from 2 to 999. -/
def resolve_dest_path (occupied : String → Bool) (stem suffix : String)
    (nowTs : Nat) : String :=
  if !occupied (stem ++ suffix) then stem ++ suffix
  else
    match findFree occupied stem suffix 2 998 with
    | some c => c
    | none => stem ++ "_" ++ toString nowTs ++ suffix

/-! ## Channel importer (app/worker.py, sync_channels_from_podsync_config) -/

/-- A Channel row: identity is the normalized source URL, plus a display
name.  Other columns do not participate in the importer. -/
structure ChannelR where
  url : String
  name : String
deriving Repr, DecidableEq

/-- Python url-or-empty strip then rstrip of slashes, the _normalize_url
helper of app/worker.py. -/
def normalize_url (s : String) : String :=
  String.mk (((pyStrip s.data).reverse.dropWhile (fun c => c == '/')).reverse)

/-- One config entry's value: either not a table (skipped), or a table whose
url key stringifies to the given text. -/
inductive FeedCfg
  | notTable
  | table (url : String)
deriving Repr, DecidableEq

/-- The single importer transaction: committed rows (with in-session
attribute mutations), rows added but not yet flushed (the session has
autoflush disabled, so lookups do not see them), and the created counter. -/
structure SyncState where
  db : List ChannelR
  pending : List ChannelR
  added : Nat
deriving Repr, DecidableEq

/-- The normalized nonempty URL of a config entry, when it has one. -/
def entryUrl (e : String × FeedCfg) : Option String :=
  match e.snd with
  | FeedCfg.notTable => none
  | FeedCfg.table raw =>
    let u := normalize_url raw
    if u = "" then none else some u

/-- One loop iteration of sync_channels_from_podsync_config: skip non-table
entries and empty URLs; create a channel named after the feed id when the
URL is unknown; otherwise backfill an empty name. -/
def syncEntry (st : SyncState) (feedId : String) (cfg : FeedCfg) : SyncState :=
  match cfg with
  | FeedCfg.notTable => st
  | FeedCfg.table raw =>
    let u := normalize_url raw
    if u = "" then st
    else
      match st.db.find? (fun ch => ch.url = u) with
      | none =>
        { st with pending := st.pending ++ [ChannelR.mk u feedId],
                  added := st.added + 1 }
      | some ch =>
        if ch.name = "" then
          { st with db := (st.db.map
              (fun c => if c.url = u then { c with name := feedId } else c)) }
        else st

/-- The importer's loop over all config entries. -/
def foldSync (feeds : List (String × FeedCfg)) (st : SyncState) : SyncState :=
  feeds.foldl (fun st e => syncEntry st e.fst e.snd) st

/-- sync_channels_from_podsync_config of app/worker.py.  A missing config
file, unparsable TOML, or a feeds value that is not a table are modelled as
the none configuration and return zero.  The result is the created count
and the table contents after commit. -/
def sync_channels_from_podsync_config
    (cfg : Option (List (String × FeedCfg))) (db : List ChannelR) :
    Nat × List ChannelR :=
  match cfg with
  | none => (0, db)
  | some feeds =>
    let st := foldSync feeds ⟨db, [], 0⟩
    (st.added, st.db ++ st.pending)

/-- Number of channel rows carrying a given URL. -/
def cntUrl : List ChannelR → String → Nat
  | [], _ => 0
  | ch :: rest, u => (if ch.url = u then 1 else 0) + cntUrl rest u

/-! ## Video metadata upserts (app/worker.py) -/

/-- A Video row, with datetimes on the integer timeline. -/
structure VideoR where
  channelId : Nat
  videoId : String
  title : String
  description : String
  webpageUrl : String
  publishedAt : Option Int
  durationSeconds : Option Int
  thumbnailUrl : String
  uploader : String
  indexedAt : Int
deriving Repr, DecidableEq

/-- One entry returned by the gateway's channel listing. -/
structure EntryR where
  videoId : String
  title : String
  description : String
  webpageUrl : String
  publishedAt : Option Int
  durationSeconds : Option Int
  thumbnailUrl : String
  uploader : String
deriving Repr, DecidableEq

/-- The shape returned by the gateway's single-video metadata fetch. -/
structure MetaR where
  title : String
  description : String
  publishedAt : Option Int
  durationSeconds : Option Int
  thumbnailUrl : String
  uploader : String
deriving Repr, DecidableEq

/-- ensure_video_metadata of app/worker.py: each field is assigned only
when the fetched value is truthy (nonempty string or present value).  The
source performs the six guarded assignments in sequence on distinct
fields, which is the simultaneous record update written here. -/
def ensure_video_metadata (v : VideoR) (m : MetaR) : VideoR :=
  { v with
    title := if m.title ≠ "" then m.title else v.title,
    description := if m.description ≠ "" then m.description else v.description,
    publishedAt := if m.publishedAt.isSome then m.publishedAt else v.publishedAt,
    durationSeconds := if m.durationSeconds.isSome then m.durationSeconds
      else v.durationSeconds,
    thumbnailUrl := if m.thumbnailUrl ≠ "" then m.thumbnailUrl else v.thumbnailUrl,
    uploader := if m.uploader ≠ "" then m.uploader else v.uploader }

/-- The update branch of _handle_index for an existing Video: every
metadata field is assigned the entry's value unconditionally, and the
indexed-at stamp is refreshed. -/
def applyIndexEntry (v : VideoR) (e : EntryR) (now : Int) : VideoR :=
  { v with title := e.title, description := e.description,
           webpageUrl := e.webpageUrl, publishedAt := e.publishedAt,
           durationSeconds := e.durationSeconds,
           thumbnailUrl := e.thumbnailUrl, uploader := e.uploader,
           indexedAt := now }

/-! ## Job queue and worker step (app/worker.py, process_next_job) -/

/-- Job statuses. -/
inductive JStatus
  | pending
  | running
  | done
  | failed
deriving Repr, DecidableEq

/-- A Job row.  The payload is modelled by the only key the failure path
reads, the video id; datetimes live on the integer timeline. -/
structure JobR where
  id : Nat
  jobType : String
  payloadVideoId : Option String
  status : JStatus
  error : Option String
  updatedAt : Int
deriving Repr, DecidableEq

/-- A Download row, restricted to the columns the job failure path touches. -/
structure DownloadR where
  videoId : String
  status : String
  error : Option String
  updatedAt : Int
deriving Repr, DecidableEq

/-- The tables written by process_next_job. -/
structure WorkerState where
  jobs : List JobR
  downloads : List DownloadR
deriving Repr, DecidableEq

/-- A handler either returns normally or raises with a message. -/
inductive HandlerResult
  | ok
  | err (msg : String)
deriving Repr, DecidableEq

/-- Oracle for a dispatched handler: the outcome, and the handler's effect
on the downloads table up to its return or its raise.  Handlers never
write Job rows in the source, so the oracle cannot either. -/
def HandlerOracle : Type :=
  JobR → HandlerResult × (List DownloadR → List DownloadR)

/-- The job with the least id in a list. -/
def minIdJob : List JobR → Option JobR
  | [] => none
  | j :: js =>
    match minIdJob js with
    | none => some j
    | some k => if j.id ≤ k.id then some j else some k

/-- The select of process_next_job: the oldest pending job, by ascending id. -/
def selectPending (jobs : List JobR) : Option JobR :=
  minIdJob (jobs.filter (fun j => j.status = JStatus.pending))

/-- Update the job with the given id. -/
def setJob (jobs : List JobR) (jid : Nat) (f : JobR → JobR) : List JobR :=
  jobs.map (fun j => if j.id = jid then f j else j)

/-- Dispatch by job type: the four known types run their handler through
the oracle; an unknown type raises without touching the tables. -/
def dispatchResult (oracle : HandlerOracle) (j : JobR) :
    HandlerResult × (List DownloadR → List DownloadR) :=
  if j.jobType = "index_channel" ∨ j.jobType = "download_video"
      ∨ j.jobType = "regenerate_manual_feed" ∨ j.jobType = "sync_podsync_feeds" then
    oracle j
  else (HandlerResult.err ("unknown job type " ++ j.jobType), id)

/-- The claim transaction of process_next_job: mark the selected pending
job running and stamp its updated time. -/
def claimStep (now : Int) (s : WorkerState) : WorkerState :=
  match selectPending s.jobs with
  | none => s
  | some j =>
    { s with jobs := (setJob s.jobs j.id
        (fun x => { x with status := JStatus.running, updatedAt := now })) }

/-- The remainder of process_next_job after the claim: refetch the job by
id, dispatch, then either mark it done and clear the error, or mark it
failed, store the exception text, and for a download job also mark the
matching Download row failed with the same text and a fresh timestamp. -/
def finishJob (oracle : HandlerOracle) (now : Int) (s : WorkerState)
    (jid : Nat) : WorkerState :=
  match s.jobs.find? (fun j => j.id = jid) with
  | none => s
  | some j =>
    match dispatchResult oracle j with
    | (HandlerResult.ok, eff) =>
      { jobs := setJob s.jobs jid
          (fun x => { x with status := JStatus.done, error := none, updatedAt := now }),
        downloads := eff s.downloads }
    | (HandlerResult.err msg, eff) =>
      let jobs := setJob s.jobs jid
        (fun x => { x with status := JStatus.failed, error := some msg, updatedAt := now })
      let ds := eff s.downloads
      if j.jobType = "download_video" then
        { jobs := jobs,
          downloads := ds.map (fun d =>
            if some d.videoId = j.payloadVideoId then
              { d with status := "failed", error := some msg, updatedAt := now }
            else d) }
      else { jobs := jobs, downloads := ds }

/-- process_next_job of app/worker.py: claim the oldest pending job, run
its handler with the loop-level exception barrier, and record the outcome. -/
def process_next_job (oracle : HandlerOracle) (now : Int) (s : WorkerState) :
    WorkerState :=
  match selectPending s.jobs with
  | none => s
  | some j => finishJob oracle now (claimStep now s) j.id

/-- The transitions the claimed state machine allows in one database write:
stay put, claim a pending job, or finish a running one. -/
def allowedEdge (a b : JStatus) : Prop :=
  a = b ∨ (a = JStatus.pending ∧ b = JStatus.running)
    ∨ (a = JStatus.running ∧ (b = JStatus.done ∨ b = JStatus.failed))

/-- The postcondition of every non-failing extractor stage: characters from
the id alphabet, length between 6 and 20. -/
def GoodId (g : List Char) : Prop :=
  (∀ c ∈ g, isIdChar c = true) ∧ 6 ≤ g.length ∧ g.length ≤ 20

/-! ## Lemmas about the extractor stages -/

theorem idRun_all : ∀ (cs : List Char), ∀ c ∈ idRun cs, isIdChar c = true := by
  intro cs
  induction cs with
  | nil => intro c hc; simp [idRun] at hc
  | cons a as ih =>
    intro c hc
    unfold idRun at hc
    by_cases ha : isIdChar a
    · rw [if_pos ha] at hc
      rcases List.mem_cons.mp hc with h | h
      · exact h ▸ ha
      · exact ih c h
    · rw [if_neg ha] at hc
      simp at hc

theorem captureId_good {cs g : List Char} (h : captureId cs = some g) : GoodId g := by
  unfold captureId at h
  by_cases h6 : 6 ≤ (idRun cs).length
  · rw [if_pos h6] at h
    injection h with h
    subst h
    refine ⟨?_, ?_, ?_⟩
    · intro c hc
      exact idRun_all cs c (List.take_subset 20 _ hc)
    · rw [List.length_take]
      omega
    · rw [List.length_take]
      omega
  · rw [if_neg h6] at h
    exact absurd h (by simp)

theorem scanWith_some {α : Type} (f : List Char → Option α) :
    ∀ {cs : List Char} {g : α}, scanWith f cs = some g → ∃ t, f t = some g := by
  intro cs
  induction cs with
  | nil => intro g h; simp [scanWith] at h
  | cons c cs ih =>
    intro g h
    rw [scanWith] at h
    cases hf : f (c :: cs) with
    | some g2 =>
      rw [hf] at h
      injection h with h
      exact ⟨c :: cs, h ▸ hf⟩
    | none =>
      rw [hf] at h
      exact ih h

theorem vParamAt_good {cs g : List Char} (h : vParamAt cs = some g) : GoodId g := by
  cases cs with
  | nil => simp [vParamAt] at h
  | cons c rest =>
    simp only [vParamAt] at h
    by_cases hc : (c == '?' || c == '&') = true
    · rw [if_pos hc] at h
      cases hd : dropLit "v=".data rest with
      | some r => rw [hd] at h; exact captureId_good h
      | none => rw [hd] at h; exact absurd h (by simp)
    · rw [if_neg hc] at h
      exact absurd h (by simp)

theorem litCaptureAt_good {lit cs g : List Char}
    (h : litCaptureAt lit cs = some g) : GoodId g := by
  unfold litCaptureAt at h
  cases hd : dropLit lit cs with
  | some r => rw [hd] at h; exact captureId_good h
  | none => rw [hd] at h; exact absurd h (by simp)

theorem ytPathCaptureAt_good {cs g : List Char}
    (h : ytPathCaptureAt cs = some g) : GoodId g := by
  unfold ytPathCaptureAt at h
  cases h0 : dropLit "youtube.com/".data cs with
  | none => rw [h0] at h; exact absurd h (by simp)
  | some rest =>
    simp only [h0] at h
    cases h1 : dropLit "shorts/".data rest with
    | some r2 => simp only [h1] at h; exact captureId_good h
    | none =>
      simp only [h1] at h
      cases h2 : dropLit "live/".data rest with
      | some r2 => simp only [h2] at h; exact captureId_good h
      | none =>
        simp only [h2] at h
        cases h3 : dropLit "embed/".data rest with
        | some r2 => simp only [h3] at h; exact captureId_good h
        | none => simp only [h3] at h; exact absurd h (by simp)

theorem urlStage_good {text g : List Char} (h : urlStage text = some g) :
    GoodId g := by
  unfold urlStage at h
  cases h1 : scanWith vParamAt text with
  | some g1 =>
    rw [h1] at h
    injection h with h
    obtain ⟨t, ht⟩ := scanWith_some _ h1
    exact h ▸ vParamAt_good ht
  | none =>
    rw [h1] at h
    cases h2 : scanWith (litCaptureAt "youtu.be/".data) text with
    | some g2 =>
      rw [h2] at h
      injection h with h
      obtain ⟨t, ht⟩ := scanWith_some _ h2
      exact h ▸ litCaptureAt_good ht
    | none =>
      rw [h2] at h
      obtain ⟨t, ht⟩ := scanWith_some _ h
      exact ytPathCaptureAt_good ht

theorem tail11Stage_good {stem t : List Char} (h : tail11Stage stem = some t) :
    GoodId t := by
  unfold tail11Stage at h
  by_cases h11 : 11 ≤ stem.length
  · rw [if_pos h11] at h
    by_cases hall : (stem.drop (stem.length - 11)).all isIdChar = true
    · rw [if_pos hall] at h
      injection h with h
      subst h
      refine ⟨List.all_eq_true.mp hall, ?_, ?_⟩ <;>
        · rw [List.length_drop]; omega
    · rw [if_neg hall] at h
      exact absurd h (by simp)
  · rw [if_neg h11] at h
    exact absurd h (by simp)

theorem fnSuffixAt_good {cs g : List Char} (h : fnSuffixAt cs = some g) :
    GoodId g := by
  cases cs with
  | nil => simp [fnSuffixAt] at h
  | cons c rest =>
    simp only [fnSuffixAt] at h
    by_cases hc : c = '_'
    · rw [if_pos hc] at h
      by_cases hlen : 6 ≤ (idRun rest).length ∧ (idRun rest).length ≤ 20
      · rw [if_pos hlen] at h
        cases hdrop : rest.drop (idRun rest).length with
        | nil => rw [hdrop] at h; exact absurd h (by simp)
        | cons d tail =>
          rw [hdrop] at h
          dsimp only at h
          by_cases hcond : d = '.' ∧ tail ≠ [] ∧ ∀ x ∈ tail, x ≠ '.'
          · rw [if_pos hcond] at h
            injection h with h
            subst h
            exact ⟨idRun_all rest, hlen.1, hlen.2⟩
          · rw [if_neg hcond] at h
            exact absurd h (by simp)
      · rw [if_neg hlen] at h
        exact absurd h (by simp)
    · rw [if_neg hc] at h
      exact absurd h (by simp)

theorem generalIdOk_good {cs : List Char} (h : generalIdOk cs = true) :
    GoodId cs := by
  unfold generalIdOk at h
  rw [Bool.and_eq_true, Bool.and_eq_true] at h
  exact ⟨List.all_eq_true.mp h.1.1, of_decide_eq_true h.1.2, of_decide_eq_true h.2⟩

theorem stemTokenStage_good {stem p : List Char}
    (h : stemTokenStage stem = some p) : GoodId p :=
  generalIdOk_good (List.find?_some h)

theorem wholeStage_good {text t : List Char} (h : wholeStage text = some t) :
    GoodId t := by
  unfold wholeStage at h
  by_cases hok : generalIdOk text = true
  · rw [if_pos hok] at h
    injection h with h
    exact h ▸ generalIdOk_good hok
  · rw [if_neg hok] at h
    exact absurd h (by simp)

theorem extractVideoIdCore_good :
    ∀ {v : List Char}, extractVideoIdCore v ≠ [] → GoodId (extractVideoIdCore v) := by
  intro v hne
  unfold extractVideoIdCore at hne ⊢
  by_cases he : (pyStrip v).isEmpty
  · rw [if_pos he] at hne ⊢
    exact absurd rfl hne
  · rw [if_neg he] at hne ⊢
    cases h1 : urlStage (pyStrip v) with
    | some g => simp only [h1]; exact urlStage_good h1
    | none =>
      simp only [h1] at hne ⊢
      cases h2 : tail11Stage (pathStemOf (pathNameOf (queryStrip (pyStrip v)))) with
      | some t => simp only [h2]; exact tail11Stage_good h2
      | none =>
        simp only [h2] at hne ⊢
        cases h3 : fnSuffixStage (pathNameOf (queryStrip (pyStrip v))) with
        | some g =>
          simp only [h3]
          obtain ⟨t, ht⟩ := scanWith_some _ h3
          exact fnSuffixAt_good ht
        | none =>
          simp only [h3] at hne ⊢
          cases h4 : stemTokenStage (pathStemOf (pathNameOf (queryStrip (pyStrip v)))) with
          | some p => simp only [h4]; exact stemTokenStage_good h4
          | none =>
            simp only [h4] at hne ⊢
            cases h5 : wholeStage (pyStrip v) with
            | some t => simp only [h5]; exact wholeStage_good h5
            | none => simp only [h5] at hne ⊢; exact absurd rfl hne

/-! ## Claim theorems: VideoID extractor -/

/-- Claim C10: whenever extract_video_id returns a non-empty result, the
result consists only of characters from the id alphabet A-Za-z0-9_- and
has length between 6 and 20 inclusive. -/
theorem C10_extractor_alphabet_and_length (s : String)
    (h : extract_video_id s ≠ "") :
    (∀ c ∈ (extract_video_id s).data, isIdChar c = true)
      ∧ 6 ≤ (extract_video_id s).length ∧ (extract_video_id s).length ≤ 20 := by
  have hne : extractVideoIdCore s.data ≠ [] := by
    intro hnil
    apply h
    unfold extract_video_id
    rw [hnil]
  have hg := extractVideoIdCore_good hne
  unfold extract_video_id
  exact hg

/-- Witness for C10 at a concrete input with a non-empty result. -/
theorem C10_extractor_alphabet_and_length_witness :
    (∀ c ∈ (extract_video_id "https://youtu.be/dQw4w9WgXcQ").data, isIdChar c = true)
      ∧ 6 ≤ (extract_video_id "https://youtu.be/dQw4w9WgXcQ").length
      ∧ (extract_video_id "https://youtu.be/dQw4w9WgXcQ").length ≤ 20 :=
  C10_extractor_alphabet_and_length "https://youtu.be/dQw4w9WgXcQ" (by decide)

/-- Claim C7: the extractor maps the youtu.be URL to its id, recovers the
id embedded in a dated talk filename, returns the empty string on prose
input, and, whenever every strategy stage fails, returns the empty string
(the function is total, so it cannot raise). -/
theorem C7_extractor_examples_and_fallthrough :
    extract_video_id "https://youtu.be/dQw4w9WgXcQ" = "dQw4w9WgXcQ"
      ∧ extract_video_id "2024-01-01_My_Talk_dQw4w9WgXcQ.mp3" = "dQw4w9WgXcQ"
      ∧ extract_video_id "not a video" = ""
      ∧ ∀ s : String,
          urlStage (pyStrip s.data) = none →
          tail11Stage (pathStemOf (pathNameOf (queryStrip (pyStrip s.data)))) = none →
          fnSuffixStage (pathNameOf (queryStrip (pyStrip s.data))) = none →
          stemTokenStage (pathStemOf (pathNameOf (queryStrip (pyStrip s.data)))) = none →
          wholeStage (pyStrip s.data) = none →
          extract_video_id s = "" := by
  refine ⟨by decide, by decide, by decide, ?_⟩
  intro s h1 h2 h3 h4 h5
  unfold extract_video_id extractVideoIdCore
  by_cases he : (pyStrip s.data).isEmpty
  · rw [if_pos he]
  · rw [if_neg he]
    simp only [h1, h2, h3, h4, h5]

/-- Witness for C7's universally quantified fallthrough clause at the
concrete prose input. -/
theorem C7_extractor_examples_and_fallthrough_witness :
    extract_video_id "not a video" = "" :=
  C7_extractor_examples_and_fallthrough.2.2.2 "not a video"
    (by decide) (by decide) (by decide) (by decide) (by decide)

/-! ## Claim theorems: merge and sort -/

theorem mergeByKey_pair (a b : FeedItem) (hk : a.dedupeKey = b.dedupeKey) :
    mergeByKey [a, b] =
      if a.descriptionLen < b.descriptionLen
          ∨ (b.descriptionLen = a.descriptionLen ∧ a.pubDate < b.pubDate) then
        [(a.dedupeKey, b)]
      else [(a.dedupeKey, a)] := by
  unfold mergeByKey
  simp only [List.foldl_cons, List.foldl_nil]
  have h1 : upsertMerged [] a = [(a.dedupeKey, a)] := by
    unfold upsertMerged lookupKey
    simp
  rw [h1]
  unfold upsertMerged
  have h2 : lookupKey [(a.dedupeKey, a)] b.dedupeKey = some a := by
    unfold lookupKey
    rw [if_pos hk]
  simp only [h2]
  by_cases hc1 : a.descriptionLen < b.descriptionLen
  · rw [if_pos hc1, if_pos (Or.inl hc1)]
    unfold setKey
    simp [hk]
  · rw [if_neg hc1]
    by_cases hc2 : b.descriptionLen = a.descriptionLen ∧ a.pubDate < b.pubDate
    · rw [if_pos hc2, if_pos (Or.inr hc2)]
      unfold setKey
      simp [hk]
    · rw [if_neg hc2, if_neg (by tauto)]

/-- Claim C3: in the merge step, of two FeedItems sharing a dedupe key the
one with the strictly longer description is kept; on equal description
lengths the one with the strictly later publish date is kept; in both
cases the winner does not depend on which side of the concatenation it
came from. -/
theorem C3_merge_richer_description_wins (a b : FeedItem)
    (hk : a.dedupeKey = b.dedupeKey) :
    (b.descriptionLen < a.descriptionLen →
      mergedValues [a, b] = [a] ∧ mergedValues [b, a] = [a])
      ∧ (a.descriptionLen = b.descriptionLen → b.pubDate < a.pubDate →
      mergedValues [a, b] = [a] ∧ mergedValues [b, a] = [a]) := by
  have hab := mergeByKey_pair a b hk
  have hba := mergeByKey_pair b a hk.symm
  constructor
  · intro hlt
    constructor
    · unfold mergedValues
      rw [hab, if_neg (by rintro (h | ⟨h, _⟩) <;> omega)]
      simp
    · unfold mergedValues
      rw [hba, if_pos (Or.inl hlt)]
      simp
  · intro heq hpd
    constructor
    · unfold mergedValues
      rw [hab, if_neg ?_]
      · simp
      · rintro (h | ⟨_, h⟩) <;> omega
    · unfold mergedValues
      rw [hba, if_pos (Or.inr ⟨heq, hpd⟩)]
      simp

/-- Witness for C3 at the spec's test values: description lengths 40 and
10 with a shared key; the length-40 item survives from either side. -/
theorem C3_merge_richer_description_wins_witness :
    mergedValues [FeedItem.mk "k1" "dQw4w9WgXcQ" 5 none "x" 40,
        FeedItem.mk "k2" "dQw4w9WgXcQ" 9 none "y" 10]
      = [FeedItem.mk "k1" "dQw4w9WgXcQ" 5 none "x" 40]
    ∧ mergedValues [FeedItem.mk "k2" "dQw4w9WgXcQ" 9 none "y" 10,
        FeedItem.mk "k1" "dQw4w9WgXcQ" 5 none "x" 40]
      = [FeedItem.mk "k1" "dQw4w9WgXcQ" 5 none "x" 40] :=
  (C3_merge_richer_description_wins
    (FeedItem.mk "k1" "dQw4w9WgXcQ" 5 none "x" 40)
    (FeedItem.mk "k2" "dQw4w9WgXcQ" 9 none "y" 10) rfl).1 (by decide)

/-- Counterexample to claim C4 as stated: on a full tie of publish date and
episode fields, the sort emits the lexicographically larger guid first, so
the final tie-break is descending, not ascending, guid order. -/
theorem C4_guid_descending_counterexample :
    mergeAndSort [FeedItem.mk "aaaaaa" "aaaaaa" 0 none "" 0]
        [FeedItem.mk "bbbbbb" "bbbbbb" 0 none "" 0]
      = [FeedItem.mk "bbbbbb" "bbbbbb" 0 none "" 0,
         FeedItem.mk "aaaaaa" "aaaaaa" 0 none "" 0]
      ∧ (FeedItem.mk "aaaaaa" "aaaaaa" 0 none "" 0).guid.data
          < (FeedItem.mk "bbbbbb" "bbbbbb" 0 none "" 0).guid.data := by
  constructor
  · decide
  · decide

/-- Claim C4 (amended): the merged list is a permutation of the merged
values, sorted by publish date descending, then by presence of an episode
number, then by episode number descending, then by guid in descending
lexical order; the characterization below unfolds the comparator exactly. -/
theorem C4_merged_sort_order (ps ms : List FeedItem) :
    (mergeAndSort ps ms).Sorted mergedDescLE
      ∧ List.Perm (mergeAndSort ps ms) (mergedValues (ps ++ ms))
      ∧ ∀ a b : FeedItem, mergedDescLE a b ↔
          (b.pubDate < a.pubDate ∨ (b.pubDate = a.pubDate ∧
            (hasEpisode b < hasEpisode a ∨ (hasEpisode b = hasEpisode a ∧
              (episodeKey b < episodeKey a ∨ (episodeKey b = episodeKey a ∧
                b.guid.data ≤ a.guid.data)))))) := by
  refine ⟨List.sorted_insertionSort _ _, List.perm_insertionSort _ _, ?_⟩
  intro a b
  unfold mergedDescLE sortKey
  simp only [Prod.Lex.le_iff, Prod.Lex.lt_iff]

/-! ## Claim theorems: dedupe key extraction (C5) -/

/-- Counterexample to claim C5 as stated: a third-party item whose guid
and link carry no id, but whose enclosure URL is a youtu.be link.  The
spec's procedure (guid, link, enclosure, child scan, serialized XML, each
through the section 4.1 extractor) yields the video id, while the worker's
merge step computes only the simplified extractor over guid then link and
falls back to the raw guid text. -/
theorem C5_dedupe_key_counterexample :
    specDedupeKey (XmlItemModel.mk "urn:example:ep:1"
        "https://example.com/episodes/1" "https://youtu.be/dQw4w9WgXcQ"
        ["urn:example:ep:1", "https://example.com/episodes/1",
          "https://youtu.be/dQw4w9WgXcQ"]
        "<item><guid>urn:example:ep:1</guid><enclosure url=\"https://youtu.be/dQw4w9WgXcQ\"/></item>")
      = "dQw4w9WgXcQ"
      ∧ workerDedupeKey "urn:example:ep:1" "https://example.com/episodes/1"
        = "urn:example:ep:1"
      ∧ ("dQw4w9WgXcQ" : String) ≠ "urn:example:ep:1" := by
  refine ⟨by decide, by decide, by decide⟩

/-- Claim C5 (amended): the dedupe key of a third-party feed item is the
worker's simplified extractor applied to the guid, else to the link, else
the raw guid text; the simplified extractor knows only the v= query
parameter, the youtu.be path and the whole-string patterns, and the
enclosure URL, child elements and serialized XML are never consulted. -/
theorem C5_feed_dedupe_key (guid link : String) :
    (worker_extract_video_id guid ≠ "" →
      workerDedupeKey guid link = worker_extract_video_id guid)
      ∧ (worker_extract_video_id guid = "" → worker_extract_video_id link ≠ "" →
        workerDedupeKey guid link = worker_extract_video_id link)
      ∧ (worker_extract_video_id guid = "" → worker_extract_video_id link = "" →
        workerDedupeKey guid link = guid) := by
  refine ⟨?_, ?_, ?_⟩
  · intro h
    simp only [workerDedupeKey]
    rw [if_pos h]
  · intro h1 h2
    simp only [workerDedupeKey]
    rw [if_neg (by simp [h1]), if_pos h2]
  · intro h1 h2
    simp only [workerDedupeKey]
    rw [if_neg (by simp [h1]), if_neg (by simp [h2])]

/-- Witness for C5's amended characterization: a guid with no id and a
youtu.be link, resolved through the link stage. -/
theorem C5_feed_dedupe_key_witness :
    workerDedupeKey "urn:example:ep:1" "https://youtu.be/dQw4w9WgXcQ"
      = worker_extract_video_id "https://youtu.be/dQw4w9WgXcQ" :=
  (C5_feed_dedupe_key "urn:example:ep:1" "https://youtu.be/dQw4w9WgXcQ").2.1
    (by decide) (by decide)

/-! ## Claim theorems: metadata never weakened (C6) -/

/-- Counterexample to claim C6 as stated: re-indexing an existing Video
through _handle_index assigns every metadata field from the gateway entry
unconditionally, so an entry with blank fields erases a non-empty title,
description and publish timestamp. -/
theorem C6_index_overwrite_counterexample :
    (applyIndexEntry
        (VideoR.mk 1 "dQw4w9WgXcQ" "Keynote" "A fine talk"
          "https://example.com/w" (some 5) (some 60)
          "https://example.com/t.jpg" "Alice" 0)
        (EntryR.mk "dQw4w9WgXcQ" "" "" "" none none "" "") 7).title = ""
      ∧ (VideoR.mk 1 "dQw4w9WgXcQ" "Keynote" "A fine talk"
          "https://example.com/w" (some 5) (some 60)
          "https://example.com/t.jpg" "Alice" 0).title ≠ ""
      ∧ (applyIndexEntry
          (VideoR.mk 1 "dQw4w9WgXcQ" "Keynote" "A fine talk"
            "https://example.com/w" (some 5) (some 60)
            "https://example.com/t.jpg" "Alice" 0)
          (EntryR.mk "dQw4w9WgXcQ" "" "" "" none none "" "") 7).description = ""
      ∧ (applyIndexEntry
          (VideoR.mk 1 "dQw4w9WgXcQ" "Keynote" "A fine talk"
            "https://example.com/w" (some 5) (some 60)
            "https://example.com/t.jpg" "Alice" 0)
          (EntryR.mk "dQw4w9WgXcQ" "" "" "" none none "" "") 7).publishedAt = none := by
  refine ⟨by decide, by decide, by decide, by decide⟩

/-- Claim C6 (amended): the metadata refresh ensure_video_metadata never
replaces a non-empty field with an empty one nor a present timestamp with
none, but the re-index update branch applyIndexEntry assigns the entry's
values unconditionally, so only the refresh path preserves strength. -/
theorem C6_metadata_refresh_no_weakening (v : VideoR) (m : MetaR)
    (e : EntryR) (now : Int) :
    ((ensure_video_metadata v m).title = "" → v.title = "")
      ∧ ((ensure_video_metadata v m).description = "" → v.description = "")
      ∧ ((ensure_video_metadata v m).publishedAt = none → v.publishedAt = none)
      ∧ ((ensure_video_metadata v m).durationSeconds = none →
        v.durationSeconds = none)
      ∧ ((ensure_video_metadata v m).thumbnailUrl = "" → v.thumbnailUrl = "")
      ∧ ((ensure_video_metadata v m).uploader = "" → v.uploader = "")
      ∧ (applyIndexEntry v e now).title = e.title
      ∧ (applyIndexEntry v e now).description = e.description
      ∧ (applyIndexEntry v e now).publishedAt = e.publishedAt := by
  refine ⟨?_, ?_, ?_, ?_, ?_, ?_, rfl, rfl, rfl⟩ <;>
    simp only [ensure_video_metadata]
  · by_cases hm : m.title ≠ ""
    · rw [if_pos hm]; intro h; exact absurd h hm
    · rw [if_neg hm]; exact id
  · by_cases hm : m.description ≠ ""
    · rw [if_pos hm]; intro h; exact absurd h hm
    · rw [if_neg hm]; exact id
  · by_cases hm : m.publishedAt.isSome
    · rw [if_pos hm]; intro h; rw [h] at hm; exact absurd hm (by simp)
    · rw [if_neg hm]; exact id
  · by_cases hm : m.durationSeconds.isSome
    · rw [if_pos hm]; intro h; rw [h] at hm; exact absurd hm (by simp)
    · rw [if_neg hm]; exact id
  · by_cases hm : m.thumbnailUrl ≠ ""
    · rw [if_pos hm]; intro h; exact absurd h hm
    · rw [if_neg hm]; exact id
  · by_cases hm : m.uploader ≠ ""
    · rw [if_pos hm]; intro h; exact absurd h hm
    · rw [if_neg hm]; exact id

/-- Witness for C6's amended theorem at a concrete video and metadata pair. -/
theorem C6_metadata_refresh_no_weakening_witness :
    (VideoR.mk 1 "dQw4w9WgXcQ" "" "d" "u" none none "t" "a" 0).title = "" :=
  (C6_metadata_refresh_no_weakening
    (VideoR.mk 1 "dQw4w9WgXcQ" "" "d" "u" none none "t" "a" 0)
    (MetaR.mk "" "" none none "" "")
    (EntryR.mk "dQw4w9WgXcQ" "" "" "" none none "" "") 0).1 (by decide)

/-! ## Claim theorems: filenames and destination paths (C8) -/

theorem findFree_none (occupied : String → Bool) (stem suffix : String) :
    ∀ (fuel i : Nat),
      (∀ j, i ≤ j → j < i + fuel →
        occupied (destCandidate stem suffix j) = true) →
      findFree occupied stem suffix i fuel = none := by
  intro fuel
  induction fuel with
  | zero => intro i _; rfl
  | succ n ih =>
    intro i h
    have hi : occupied (destCandidate stem suffix i) = true :=
      h i le_rfl (by omega)
    unfold findFree
    rw [hi]
    simp only [Bool.not_true, Bool.false_eq_true, if_false]
    exact ih (i + 1) (fun j h1 h2 => h j (by omega) (by omega))

theorem findFree_first (occupied : String → Bool) (stem suffix : String) :
    ∀ (fuel i k : Nat), i ≤ k → k < i + fuel →
      occupied (destCandidate stem suffix k) = false →
      (∀ j, i ≤ j → j < k → occupied (destCandidate stem suffix j) = true) →
      findFree occupied stem suffix i fuel = some (destCandidate stem suffix k) := by
  intro fuel
  induction fuel with
  | zero => intro i k h1 h2; omega
  | succ n ih =>
    intro i k h1 h2 hfree hmin
    unfold findFree
    by_cases hik : i = k
    · subst hik
      rw [hfree]
      simp
    · have hocc : occupied (destCandidate stem suffix i) = true :=
        hmin i le_rfl (by omega)
      rw [hocc]
      simp only [Bool.not_true, Bool.false_eq_true, if_false]
      exact ih (i + 1) k (by omega) (by omega) hfree
        (fun j hj1 hj2 => hmin j (by omega) hj2)

/-- Claim C8: the final filename is the publish date (or today), the
slugified title cut to 150 characters, the video id and the extension; a
collision is resolved by the first free numbered candidate from 2 to 999,
independently of the clock; when all 999 checks fail the timestamp
fallback is used.  The resolver is a pure function of the occupied set and
the clock. -/
theorem C8_filename_and_destination (occupied : String → Bool)
    (stem suffix : String) (ts : Nat) (pd : Option Date) (today : Date)
    (title ext vid : String) :
    build_filename pd today title ext vid
        = formatDate (pd.getD today) ++ "_" ++ slugify_title title
          ++ "_" ++ vid ++ "." ++ ext
      ∧ (slugify_title title).length ≤ 150
      ∧ (occupied (stem ++ suffix) = false →
        resolve_dest_path occupied stem suffix ts = stem ++ suffix)
      ∧ (∀ k, occupied (stem ++ suffix) = true → 2 ≤ k → k ≤ 999 →
        occupied (destCandidate stem suffix k) = false →
        (∀ j, 2 ≤ j → j < k → occupied (destCandidate stem suffix j) = true) →
        ∀ ts2, resolve_dest_path occupied stem suffix ts
            = destCandidate stem suffix k
          ∧ resolve_dest_path occupied stem suffix ts
            = resolve_dest_path occupied stem suffix ts2)
      ∧ (occupied (stem ++ suffix) = true →
        (∀ j, 2 ≤ j → j ≤ 999 →
          occupied (destCandidate stem suffix j) = true) →
        resolve_dest_path occupied stem suffix ts
          = stem ++ "_" ++ toString ts ++ suffix) := by
  refine ⟨rfl, ?_, ?_, ?_, ?_⟩
  · unfold slugify_title
    by_cases he : ((collapseWs (pyStrip (title.data.filter slugAllowed))).take 150).isEmpty
    · rw [if_pos he]
      decide
    · rw [if_neg he]
      show ((collapseWs (pyStrip (title.data.filter slugAllowed))).take 150).length ≤ 150
      rw [List.length_take]
      omega
  · intro hfree
    unfold resolve_dest_path
    rw [hfree]
    simp
  · intro k hocc h2 h999 hfree hmin ts2
    have hf : findFree occupied stem suffix 2 998
        = some (destCandidate stem suffix k) :=
      findFree_first occupied stem suffix 998 2 k h2 (by omega) hfree hmin
    constructor
    · unfold resolve_dest_path
      rw [hocc]
      simp only [Bool.not_true, Bool.false_eq_true, if_false, hf]
    · unfold resolve_dest_path
      rw [hocc]
      simp only [Bool.not_true, Bool.false_eq_true, if_false, hf]
  · intro hocc hall
    have hf : findFree occupied stem suffix 2 998 = none :=
      findFree_none occupied stem suffix 998 2
        (fun j h1 h2 => hall j h1 (by omega))
    unfold resolve_dest_path
    rw [hocc]
    simp only [Bool.not_true, Bool.false_eq_true, if_false, hf]

/-- Witness for C8 at a concrete occupied set: the base name is taken, the
first numbered candidate is free and chosen. -/
theorem C8_filename_and_destination_witness :
    resolve_dest_path (fun s => s == "a.mp3") "a" ".mp3" 77
      = destCandidate "a" ".mp3" 2 :=
  ((C8_filename_and_destination (fun s => s == "a.mp3") "a" ".mp3" 77
      none (Date.mk 2024 1 1) "t" "mp3" "dQw4w9WgXcQ").2.2.2.1
    2 (by decide) (by decide) (by decide) (by decide)
    (fun j h1 h2 => absurd (lt_of_le_of_lt h1 h2) (lt_irrefl 2)) 0).1

/-! ## Lemmas about the channel importer (C9) -/

theorem cntUrl_append (l1 l2 : List ChannelR) (u : String) :
    cntUrl (l1 ++ l2) u = cntUrl l1 u + cntUrl l2 u := by
  induction l1 with
  | nil => simp [cntUrl]
  | cons ch rest ih => simp [cntUrl, ih]; omega

theorem cntUrl_map_name (l : List ChannelR) (u0 f u : String) :
    cntUrl (l.map (fun c => if c.url = u0 then { c with name := f } else c)) u
      = cntUrl l u := by
  induction l with
  | nil => rfl
  | cons ch rest ih =>
    simp only [List.map_cons, cntUrl, ih]
    by_cases hc : ch.url = u0
    · simp [hc]
    · simp [hc]

theorem urls_map_name (l : List ChannelR) (u0 f : String) :
    (l.map (fun c => if c.url = u0 then { c with name := f } else c)).map
        ChannelR.url
      = l.map ChannelR.url := by
  induction l with
  | nil => rfl
  | cons ch rest ih =>
    simp only [List.map_cons, ih]
    by_cases hc : ch.url = u0
    · simp [hc]
    · simp [hc]

theorem cntUrl_zero_find (l : List ChannelR) (u : String)
    (h : cntUrl l u = 0) : l.find? (fun ch => ch.url = u) = none := by
  rw [List.find?_eq_none]
  intro ch hch
  induction l with
  | nil => simp at hch
  | cons c rest ih =>
    simp only [cntUrl] at h
    rcases List.mem_cons.mp hch with he | he
    · subst he
      by_cases hc : ch.url = u
      · rw [if_pos hc] at h; omega
      · simp [hc]
    · exact ih (by omega) he

theorem mem_urls_find (l : List ChannelR) (u : String)
    (h : u ∈ l.map ChannelR.url) :
    ∃ ch, l.find? (fun ch => ch.url = u) = some ch := by
  obtain ⟨ch, hmem, hu⟩ := List.mem_map.mp h
  have : (l.find? (fun ch => ch.url = u)).isSome := by
    rw [List.find?_isSome]
    exact ⟨ch, hmem, by simp [hu]⟩
  exact Option.isSome_iff_exists.mp this

/-- A config entry with no usable URL leaves the state untouched. -/
theorem syncEntry_none (st : SyncState) (f : String) (c : FeedCfg)
    (h : entryUrl (f, c) = none) : syncEntry st f c = st := by
  cases c with
  | notTable => rfl
  | table raw =>
    simp only [entryUrl] at h
    by_cases hu : normalize_url raw = ""
    · simp only [syncEntry]
      rw [if_pos hu]
    · rw [if_neg hu] at h
      exact absurd h (by simp)

/-- One entry step, viewed from a URL it does not carry: counts by that
URL are unchanged on both the committed and the pending side. -/
theorem syncEntry_other (st : SyncState) (f : String) (c : FeedCfg)
    (u : String) (h : entryUrl (f, c) ≠ some u) :
    cntUrl (syncEntry st f c).db u = cntUrl st.db u
      ∧ cntUrl (syncEntry st f c).pending u = cntUrl st.pending u := by
  cases c with
  | notTable => exact ⟨rfl, rfl⟩
  | table raw =>
    simp only [syncEntry]
    by_cases hu : normalize_url raw = ""
    · rw [if_pos hu]; exact ⟨rfl, rfl⟩
    · rw [if_neg hu]
      have hne : normalize_url raw ≠ u := by
        intro he
        apply h
        simp only [entryUrl]
        rw [if_neg hu, he]
      cases hf : st.db.find? (fun ch => ch.url = normalize_url raw) with
      | none =>
        refine ⟨rfl, ?_⟩
        show cntUrl (st.pending ++ [ChannelR.mk (normalize_url raw) f]) u
          = cntUrl st.pending u
        rw [cntUrl_append]
        simp [cntUrl, hne]
      | some ch =>
        simp only
        by_cases hn : ch.name = ""
        · rw [if_pos hn]
          exact ⟨cntUrl_map_name _ _ _ _, rfl⟩
        · rw [if_neg hn]
          exact ⟨rfl, rfl⟩

/-- One entry step whose URL is already present in the committed rows:
nothing is created, URLs and URL counts are unchanged. -/
theorem syncEntry_covered (st : SyncState) (f : String) (c : FeedCfg)
    (hcov : ∀ u, entryUrl (f, c) = some u → u ∈ st.db.map ChannelR.url) :
    (syncEntry st f c).added = st.added
      ∧ (syncEntry st f c).pending = st.pending
      ∧ (syncEntry st f c).db.map ChannelR.url = st.db.map ChannelR.url
      ∧ ∀ u2, cntUrl (syncEntry st f c).db u2 = cntUrl st.db u2 := by
  cases c with
  | notTable => exact ⟨rfl, rfl, rfl, fun _ => rfl⟩
  | table raw =>
    simp only [syncEntry]
    by_cases hu : normalize_url raw = ""
    · rw [if_pos hu]; exact ⟨rfl, rfl, rfl, fun _ => rfl⟩
    · rw [if_neg hu]
      have hmem : normalize_url raw ∈ st.db.map ChannelR.url := by
        apply hcov
        simp only [entryUrl]
        rw [if_neg hu]
      obtain ⟨ch, hch⟩ := mem_urls_find st.db (normalize_url raw) hmem
      rw [hch]
      simp only
      by_cases hn : ch.name = ""
      · rw [if_pos hn]
        exact ⟨rfl, rfl, urls_map_name _ _ _, fun u2 => cntUrl_map_name _ _ _ _⟩
      · rw [if_neg hn]
        exact ⟨rfl, rfl, rfl, fun _ => rfl⟩

/-- The pending list only grows along the fold. -/
theorem foldSync_pending_mono (feeds : List (String × FeedCfg)) :
    ∀ st : SyncState, ∃ t, (foldSync feeds st).pending = st.pending ++ t := by
  induction feeds with
  | nil => intro st; exact ⟨[], by simp [foldSync]⟩
  | cons e rest ih =>
    intro st
    have hstep : ∃ t0, (syncEntry st e.fst e.snd).pending = st.pending ++ t0 := by
      cases hc : e.snd with
      | notTable => exact ⟨[], by simp [syncEntry]⟩
      | table raw =>
        simp only [syncEntry]
        by_cases hu : normalize_url raw = ""
        · rw [if_pos hu]; exact ⟨[], by simp⟩
        · rw [if_neg hu]
          cases hf : st.db.find? (fun ch => ch.url = normalize_url raw) with
          | none => exact ⟨[ChannelR.mk (normalize_url raw) e.fst], rfl⟩
          | some ch =>
            simp only
            by_cases hn : ch.name = ""
            · rw [if_pos hn]; exact ⟨[], by simp⟩
            · rw [if_neg hn]; exact ⟨[], by simp⟩
    obtain ⟨t0, ht0⟩ := hstep
    obtain ⟨t1, ht1⟩ := ih (syncEntry st e.fst e.snd)
    refine ⟨t0 ++ t1, ?_⟩
    have : foldSync (e :: rest) st = foldSync rest (syncEntry st e.fst e.snd) := rfl
    rw [this, ht1, ht0, List.append_assoc]

/-- The committed URL list is invariant along the fold. -/
theorem foldSync_db_urls (feeds : List (String × FeedCfg)) :
    ∀ st : SyncState,
      (foldSync feeds st).db.map ChannelR.url = st.db.map ChannelR.url := by
  induction feeds with
  | nil => intro st; rfl
  | cons e rest ih =>
    intro st
    have hstep : (syncEntry st e.fst e.snd).db.map ChannelR.url
        = st.db.map ChannelR.url := by
      cases hc : e.snd with
      | notTable => rfl
      | table raw =>
        simp only [syncEntry]
        by_cases hu : normalize_url raw = ""
        · rw [if_pos hu]
        · rw [if_neg hu]
          cases hf : st.db.find? (fun ch => ch.url = normalize_url raw) with
          | none => rfl
          | some ch =>
            simp only
            by_cases hn : ch.name = ""
            · rw [if_pos hn]
              exact urls_map_name _ _ _
            · rw [if_neg hn]
    have : foldSync (e :: rest) st = foldSync rest (syncEntry st e.fst e.snd) := rfl
    rw [this, ih, hstep]

/-- When every entry's URL is already committed, the whole fold is a
no-op apart from name backfills: nothing is added or left pending, and
URLs and URL counts are unchanged. -/
theorem foldSync_covered (feeds : List (String × FeedCfg)) :
    ∀ st : SyncState,
      (∀ e ∈ feeds, ∀ u, entryUrl e = some u → u ∈ st.db.map ChannelR.url) →
      (foldSync feeds st).added = st.added
        ∧ (foldSync feeds st).pending = st.pending
        ∧ (foldSync feeds st).db.map ChannelR.url = st.db.map ChannelR.url
        ∧ ∀ u2, cntUrl (foldSync feeds st).db u2 = cntUrl st.db u2 := by
  induction feeds with
  | nil => intro st _; exact ⟨rfl, rfl, rfl, fun _ => rfl⟩
  | cons e rest ih =>
    intro st hcov
    have hstep := syncEntry_covered st e.fst e.snd
      (fun u hu => hcov e (List.mem_cons_self e rest) u (by
        cases e with
        | mk f c => exact hu))
    have hcov2 : ∀ e2 ∈ rest, ∀ u, entryUrl e2 = some u →
        u ∈ (syncEntry st e.fst e.snd).db.map ChannelR.url := by
      intro e2 he2 u hu
      rw [hstep.2.2.1]
      exact hcov e2 (List.mem_cons_of_mem e he2) u hu
    have hrest := ih (syncEntry st e.fst e.snd) hcov2
    have hfold : foldSync (e :: rest) st
        = foldSync rest (syncEntry st e.fst e.snd) := rfl
    refine ⟨?_, ?_, ?_, ?_⟩
    · rw [hfold, hrest.1, hstep.1]
    · rw [hfold, hrest.2.1, hstep.2.1]
    · rw [hfold, hrest.2.2.1, hstep.2.2.1]
    · intro u2
      rw [hfold, hrest.2.2.2 u2, hstep.2.2.2 u2]

/-- Every entry URL is present somewhere after the fold. -/
theorem foldSync_covers (feeds : List (String × FeedCfg)) :
    ∀ st : SyncState, ∀ e ∈ feeds, ∀ u, entryUrl e = some u →
      u ∈ (foldSync feeds st).db.map ChannelR.url
        ∨ u ∈ (foldSync feeds st).pending.map ChannelR.url := by
  induction feeds with
  | nil => intro st e he; simp at he
  | cons e0 rest ih =>
    intro st e he u hu
    have hfold : foldSync (e0 :: rest) st
        = foldSync rest (syncEntry st e0.fst e0.snd) := rfl
    rcases List.mem_cons.mp he with he0 | hrest
    · subst he0
      cases hc : e.snd with
      | notTable => rw [show entryUrl e = none by cases e; simp_all [entryUrl]] at hu; exact absurd hu (by simp)
      | table raw =>
        have hu2 : normalize_url raw ≠ "" ∧ u = normalize_url raw := by
          cases e with
          | mk f c =>
            simp only at hc
            subst hc
            simp only [entryUrl] at hu
            by_cases hne : normalize_url raw = ""
            · rw [if_pos hne] at hu; exact absurd hu (by simp)
            · rw [if_neg hne] at hu
              exact ⟨hne, by injection hu with h; exact h.symm⟩
        cases hf : st.db.find? (fun ch => ch.url = normalize_url raw) with
        | some ch =>
          left
          rw [hfold, foldSync_db_urls]
          have hstepurls : (syncEntry st e.fst e.snd).db.map ChannelR.url
              = st.db.map ChannelR.url := by
            cases e with
            | mk f c =>
              simp only at hc
              subst hc
              simp only [syncEntry]
              rw [if_neg hu2.1, hf]
              simp only
              by_cases hn : ch.name = ""
              · rw [if_pos hn]; exact urls_map_name _ _ _
              · rw [if_neg hn]
          rw [hstepurls, hu2.2]
          have hchmem := List.mem_of_find?_eq_some hf
          have hchurl : ch.url = normalize_url raw := by
            have := List.find?_some hf
            simpa using this
          exact List.mem_map.mpr ⟨ch, hchmem, hchurl⟩
        | none =>
          right
          have hpend : (syncEntry st e.fst e.snd).pending
              = st.pending ++ [ChannelR.mk (normalize_url raw) e.fst] := by
            cases e with
            | mk f c =>
              simp only at hc
              subst hc
              simp only [syncEntry]
              rw [if_neg hu2.1, hf]
          obtain ⟨t, ht⟩ := foldSync_pending_mono rest (syncEntry st e.fst e.snd)
          rw [hfold, ht, hpend, hu2.2]
          simp
    · exact ih (syncEntry st e0.fst e0.snd) e hrest u hu

/-- Along the fold, a URL appearing in no entry keeps its counts. -/
theorem foldSync_other (feeds : List (String × FeedCfg)) :
    ∀ st : SyncState, ∀ u : String, (∀ e ∈ feeds, entryUrl e ≠ some u) →
      cntUrl (foldSync feeds st).db u = cntUrl st.db u
        ∧ cntUrl (foldSync feeds st).pending u = cntUrl st.pending u := by
  induction feeds with
  | nil => intro st u _; exact ⟨rfl, rfl⟩
  | cons e rest ih =>
    intro st u h
    have hstep := syncEntry_other st e.fst e.snd u (by
      have := h e (List.mem_cons_self e rest)
      cases e with
      | mk f c => exact this)
    have hrest := ih (syncEntry st e.fst e.snd) u
      (fun e2 he2 => h e2 (List.mem_cons_of_mem e he2))
    have hfold : foldSync (e :: rest) st
        = foldSync rest (syncEntry st e.fst e.snd) := rfl
    rw [hfold]
    exact ⟨hrest.1.trans hstep.1, hrest.2.trans hstep.2⟩

/-- A URL carried by exactly one entry and absent from the state is
created exactly once by the fold. -/
theorem foldSync_fresh (feeds : List (String × FeedCfg)) :
    ∀ st : SyncState, ∀ u : String,
      (feeds.filterMap entryUrl).Nodup →
      u ∈ feeds.filterMap entryUrl →
      cntUrl st.db u = 0 → cntUrl st.pending u = 0 →
      cntUrl (foldSync feeds st).db u = 0
        ∧ cntUrl (foldSync feeds st).pending u = 1 := by
  induction feeds with
  | nil => intro st u _ hmem; simp at hmem
  | cons e rest ih =>
    intro st u hnodup hmem hdb hpend
    have hfold : foldSync (e :: rest) st
        = foldSync rest (syncEntry st e.fst e.snd) := rfl
    cases he : entryUrl e with
    | none =>
      have hst : syncEntry st e.fst e.snd = st := by
        cases e with
        | mk f c => exact syncEntry_none st f c he
      rw [hfold, hst]
      refine ih st u ?_ ?_ hdb hpend
      · rw [List.filterMap_cons, he] at hnodup; exact hnodup
      · rw [List.filterMap_cons, he] at hmem; exact hmem
    | some u0 =>
      rw [List.filterMap_cons, he] at hnodup hmem
      have hnodup2 := List.nodup_cons.mp hnodup
      by_cases hu0 : u0 = u
      · subst hu0
        have hfind : st.db.find? (fun ch => ch.url = u0) = none :=
          cntUrl_zero_find st.db u0 hdb
        have hstep : (syncEntry st e.fst e.snd).db = st.db
            ∧ (syncEntry st e.fst e.snd).pending
              = st.pending ++ [ChannelR.mk u0 e.fst] := by
          cases e with
          | mk f c =>
            cases c with
            | notTable => simp [entryUrl] at he
            | table raw =>
              simp only [entryUrl] at he
              by_cases hne : normalize_url raw = ""
              · rw [if_pos hne] at he; exact absurd he (by simp)
              · rw [if_neg hne] at he
                injection he with he
                subst he
                simp only [syncEntry]
                rw [if_neg hne, hfind]
                exact ⟨rfl, rfl⟩
        have hother := foldSync_other rest (syncEntry st e.fst e.snd) u0
          (fun e2 he2 => by
            intro hc
            exact hnodup2.1 (List.mem_filterMap.mpr ⟨e2, he2, hc⟩))
        rw [hfold]
        constructor
        · rw [hother.1, hstep.1, hdb]
        · rw [hother.2, hstep.2, cntUrl_append, hpend]
          simp [cntUrl]
      · have hmem2 : u ∈ rest.filterMap entryUrl := by
          rcases List.mem_cons.mp hmem with h | h
          · exact absurd h.symm hu0
          · exact h
        have hstep := syncEntry_other st e.fst e.snd u (by
          cases e with
          | mk f c =>
            rw [he]
            intro hc
            injection hc with hc
            exact hu0 hc)
        rw [hfold]
        exact ih (syncEntry st e.fst e.snd) u hnodup2.2 hmem2
          (hstep.1.trans hdb) (hstep.2.trans hpend)

/-- Claim C9: the importer is idempotent over Channel creation.  With the
database satisfying its unique-URL constraint and the config's usable URLs
pairwise distinct (two config entries with one URL would make the first
run violate the unique constraint and raise), a second run creates
nothing: it returns zero, preserves the URL list, and an entry URL absent
before the first run is carried by exactly one channel after both runs;
a missing or malformed config returns zero and changes nothing. -/
theorem C9_channel_importer_idempotent
    (feeds : List (String × FeedCfg)) (db : List ChannelR)
    (hdb : List.Pairwise (fun a b : ChannelR => a.url ≠ b.url) db)
    (hnodup : (feeds.filterMap entryUrl).Nodup) :
    (sync_channels_from_podsync_config (some feeds)
        (sync_channels_from_podsync_config (some feeds) db).2).1 = 0
      ∧ (sync_channels_from_podsync_config (some feeds)
          (sync_channels_from_podsync_config (some feeds) db).2).2.map
            ChannelR.url
        = (sync_channels_from_podsync_config (some feeds) db).2.map ChannelR.url
      ∧ (∀ e ∈ feeds, ∀ u, entryUrl e = some u → cntUrl db u = 0 →
        cntUrl (sync_channels_from_podsync_config (some feeds)
          (sync_channels_from_podsync_config (some feeds) db).2).2 u = 1)
      ∧ ∀ d : List ChannelR, sync_channels_from_podsync_config none d = (0, d) := by
  have hr : ∀ d2 : List ChannelR,
      sync_channels_from_podsync_config (some feeds) d2
        = ((foldSync feeds ⟨d2, [], 0⟩).added,
          (foldSync feeds ⟨d2, [], 0⟩).db ++ (foldSync feeds ⟨d2, [], 0⟩).pending) :=
    fun _ => rfl
  have hcov2 : ∀ e ∈ feeds, ∀ u, entryUrl e = some u →
      u ∈ ((foldSync feeds ⟨db, [], 0⟩).db
          ++ (foldSync feeds ⟨db, [], 0⟩).pending).map ChannelR.url := by
    intro e he u hu
    rw [List.map_append]
    rcases foldSync_covers feeds ⟨db, [], 0⟩ e he u hu with h | h
    · exact List.mem_append_left _ h
    · exact List.mem_append_right _ h
  have hcovd := foldSync_covered feeds
    ⟨(foldSync feeds ⟨db, [], 0⟩).db ++ (foldSync feeds ⟨db, [], 0⟩).pending,
      [], 0⟩ (fun e he u hu => hcov2 e he u hu)
  refine ⟨?_, ?_, ?_, fun d => rfl⟩
  · rw [hr db]
    rw [hr ((foldSync feeds ⟨db, [], 0⟩).db ++ (foldSync feeds ⟨db, [], 0⟩).pending)]
    exact hcovd.1
  · rw [hr db]
    rw [hr ((foldSync feeds ⟨db, [], 0⟩).db ++ (foldSync feeds ⟨db, [], 0⟩).pending)]
    simp only
    rw [hcovd.2.1, List.append_nil, hcovd.2.2.1]
  · intro e he u hu hc0
    have hmem : u ∈ feeds.filterMap entryUrl :=
      List.mem_filterMap.mpr ⟨e, he, hu⟩
    have hfresh := foldSync_fresh feeds ⟨db, [], 0⟩ u hnodup hmem hc0 rfl
    rw [hr db]
    rw [hr ((foldSync feeds ⟨db, [], 0⟩).db ++ (foldSync feeds ⟨db, [], 0⟩).pending)]
    simp only
    rw [hcovd.2.1, List.append_nil, hcovd.2.2.2 u]
    show cntUrl ((foldSync feeds ⟨db, [], 0⟩).db
      ++ (foldSync feeds ⟨db, [], 0⟩).pending) u = 1
    rw [cntUrl_append, hfresh.1, hfresh.2]

/-- Witness for C9 at the spec's test config: one feed with one URL, run
twice against an empty database, yields exactly one channel row for it. -/
theorem C9_channel_importer_idempotent_witness :
    cntUrl (sync_channels_from_podsync_config
        (some [("a", FeedCfg.table "https://x/y")])
        (sync_channels_from_podsync_config
          (some [("a", FeedCfg.table "https://x/y")]) []).2).2 "https://x/y"
      = 1 :=
  (C9_channel_importer_idempotent [("a", FeedCfg.table "https://x/y")] []
      List.Pairwise.nil (by decide)).2.2.1
    ("a", FeedCfg.table "https://x/y") (List.mem_singleton.mpr rfl)
    "https://x/y" (by decide) rfl

/-! ## Lemmas about the worker step (C1, C2) -/

theorem minIdJob_mem : ∀ {l : List JobR} {j : JobR}, minIdJob l = some j → j ∈ l := by
  intro l
  induction l with
  | nil => intro j h; simp [minIdJob] at h
  | cons a as ih =>
    intro j h
    simp only [minIdJob] at h
    cases hm : minIdJob as with
    | none =>
      rw [hm] at h
      injection h with h
      exact h ▸ List.mem_cons_self a as
    | some k =>
      simp only [hm] at h
      by_cases hle : a.id ≤ k.id
      · rw [if_pos hle] at h
        injection h with h
        exact h ▸ List.mem_cons_self a as
      · rw [if_neg hle] at h
        injection h with h
        exact List.mem_cons_of_mem a (ih (h ▸ hm))

theorem selectPending_some {jobs : List JobR} {j : JobR}
    (h : selectPending jobs = some j) :
    j ∈ jobs ∧ j.status = JStatus.pending := by
  have hm := minIdJob_mem h
  have hmf := List.mem_filter.mp hm
  exact ⟨hmf.1, by simpa using hmf.2⟩

theorem mem_setJob {jobs : List JobR} {j : JobR} (hj : j ∈ jobs)
    (jid : Nat) (f : JobR → JobR) :
    (if j.id = jid then f j else j) ∈ setJob jobs jid f :=
  List.mem_map.mpr ⟨j, hj, rfl⟩

theorem setJob_ids (jobs : List JobR) (jid : Nat) (f : JobR → JobR)
    (hf : ∀ x, (f x).id = x.id) :
    (setJob jobs jid f).map JobR.id = jobs.map JobR.id := by
  unfold setJob
  rw [List.map_map]
  apply List.map_congr_left
  intro x _
  by_cases hid : x.id = jid
  · simp [Function.comp, hid, hf]
  · simp [Function.comp, hid]

theorem find?_setJob {jobs : List JobR} (hn : (jobs.map JobR.id).Nodup)
    {j : JobR} (hj : j ∈ jobs) (f : JobR → JobR) (hf : (f j).id = j.id) :
    (setJob jobs j.id f).find? (fun x => x.id = j.id) = some (f j) := by
  induction jobs with
  | nil => simp at hj
  | cons k rest ih =>
    rw [List.map_cons, List.nodup_cons] at hn
    rcases List.mem_cons.mp hj with he | he
    · subst he
      show ((if j.id = j.id then f j else j) ::
        rest.map (fun x => if x.id = j.id then f x else x)).find?
          (fun x => x.id = j.id) = some (f j)
      rw [if_pos rfl]
      exact List.find?_cons_of_pos _ (by simp [hf])
    · have hkid : ¬(k.id = j.id) := by
        intro he2
        exact hn.1 (he2 ▸ List.mem_map.mpr ⟨j, he, rfl⟩)
      show ((if k.id = j.id then f k else k) ::
        rest.map (fun x => if x.id = j.id then f x else x)).find?
          (fun x => x.id = j.id) = some (f j)
      rw [if_neg hkid]
      rw [List.find?_cons_of_neg _ (by simp [hkid])]
      exact ih hn.2 he

/-- The shape of the job table after one worker step that claimed a job:
the selected id is first marked running, then rewritten by a finisher
whose output status is always done or failed and whose id is unchanged. -/
theorem process_jobs_shape (oracle : HandlerOracle) (now : Int)
    (s : WorkerState) {j0 : JobR} (hn : (s.jobs.map JobR.id).Nodup)
    (hsel : selectPending s.jobs = some j0) :
    ∃ g : JobR → JobR, (∀ x, (g x).id = x.id)
      ∧ (∀ x, (g x).status = JStatus.done ∨ (g x).status = JStatus.failed)
      ∧ (process_next_job oracle now s).jobs
        = setJob (setJob s.jobs j0.id
            (fun x => { x with status := JStatus.running, updatedAt := now }))
          j0.id g := by
  obtain ⟨h0mem, _⟩ := selectPending_some hsel
  simp only [process_next_job, hsel, claimStep]
  have hfind := find?_setJob hn h0mem
    (fun x => { x with status := JStatus.running, updatedAt := now }) rfl
  simp only [finishJob, hfind]
  cases hd : dispatchResult oracle
      { j0 with status := JStatus.running, updatedAt := now } with
  | mk res eff =>
    cases res with
    | ok =>
      exact ⟨(fun x =>
          { x with status := JStatus.done, error := none, updatedAt := now }),
        fun x => rfl, fun x => Or.inl rfl, rfl⟩
    | err msg =>
      refine ⟨(fun x =>
          { x with status := JStatus.failed, error := some msg, updatedAt := now }),
        fun x => rfl, fun x => Or.inr rfl, ?_⟩
      by_cases hdl : j0.jobType = "download_video"
      · simp only [if_pos hdl]
      · simp only [if_neg hdl]

/-- A job selected as pending always finishes the step as done or failed. -/
theorem process_selected_finishes (oracle : HandlerOracle) (now : Int)
    (s : WorkerState) (hn : (s.jobs.map JobR.id).Nodup) (j : JobR)
    (hsel : selectPending s.jobs = some j) :
    ∃ k ∈ (process_next_job oracle now s).jobs,
      k.id = j.id ∧ (k.status = JStatus.done ∨ k.status = JStatus.failed) := by
  obtain ⟨hjmem, _⟩ := selectPending_some hsel
  obtain ⟨g, hgid, hgst, hshape⟩ := process_jobs_shape oracle now s hn hsel
  have hm1 : ({ j with status := JStatus.running, updatedAt := now } : JobR)
      ∈ setJob s.jobs j.id
        (fun x => { x with status := JStatus.running, updatedAt := now }) := by
    have := mem_setJob hjmem j.id
      (fun x => { x with status := JStatus.running, updatedAt := now })
    rwa [if_pos rfl] at this
  have hm2 := mem_setJob hm1 j.id g
  rw [if_pos rfl] at hm2
  rw [hshape]
  exact ⟨g { j with status := JStatus.running, updatedAt := now }, hm2,
    hgid _, hgst _⟩

/-- Claim C2: in one worker step every job's status moves only along the
edges pending to running (the claim transaction) and running to done or
failed (the finish transaction), witnessed by the intermediate claimed
state, and never backwards; a failed job is left untouched and is never
selected for execution. -/
theorem C2_job_status_monotone (oracle : HandlerOracle) (now : Int)
    (s : WorkerState) (hn : (s.jobs.map JobR.id).Nodup) :
    ∀ j ∈ s.jobs,
      (∃ j1 ∈ (claimStep now s).jobs, j1.id = j.id
        ∧ allowedEdge j.status j1.status
        ∧ ∃ j2 ∈ (process_next_job oracle now s).jobs, j2.id = j.id
          ∧ allowedEdge j1.status j2.status)
      ∧ (j.status = JStatus.failed →
        j ∈ (process_next_job oracle now s).jobs
          ∧ selectPending s.jobs ≠ some j) := by
  intro j hj
  cases hsel : selectPending s.jobs with
  | none =>
    have hps : process_next_job oracle now s = s := by
      simp [process_next_job, hsel]
    have hcs : claimStep now s = s := by
      simp [claimStep, hsel]
    refine ⟨⟨j, by rw [hcs]; exact hj, rfl, Or.inl rfl,
      j, by rw [hps]; exact hj, rfl, Or.inl rfl⟩,
      fun _ => ⟨by rw [hps]; exact hj, by simp⟩⟩
  | some j0 =>
    obtain ⟨h0mem, h0pend⟩ := selectPending_some hsel
    obtain ⟨g, hgid, hgst, hshape⟩ := process_jobs_shape oracle now s hn hsel
    have hcs : (claimStep now s).jobs = setJob s.jobs j0.id
        (fun x => { x with status := JStatus.running, updatedAt := now }) := by
      simp [claimStep, hsel]
    by_cases hid : j.id = j0.id
    · have hjj : j = j0 := List.inj_on_of_nodup_map hn hj h0mem hid
      have hm1 : ({ j with status := JStatus.running, updatedAt := now } : JobR)
          ∈ setJob s.jobs j0.id
            (fun x => { x with status := JStatus.running, updatedAt := now }) := by
        have := mem_setJob hj j0.id
          (fun x => { x with status := JStatus.running, updatedAt := now })
        rwa [if_pos hid] at this
      have hm2 := mem_setJob hm1 j0.id g
      rw [if_pos hid] at hm2
      constructor
      · refine ⟨{ j with status := JStatus.running, updatedAt := now },
          by rw [hcs]; exact hm1, rfl, ?_, ?_⟩
        · exact Or.inr (Or.inl ⟨hjj ▸ h0pend, rfl⟩)
        · refine ⟨g { j with status := JStatus.running, updatedAt := now },
            by rw [hshape]; exact hm2, hgid _, ?_⟩
          exact Or.inr (Or.inr ⟨rfl, hgst _⟩)
      · intro hf
        exact absurd (hjj ▸ hf) (by simp [h0pend])
    · have hm1 : j ∈ setJob s.jobs j0.id
          (fun x => { x with status := JStatus.running, updatedAt := now }) := by
        have := mem_setJob hj j0.id
          (fun x => { x with status := JStatus.running, updatedAt := now })
        rwa [if_neg hid] at this
      have hm2 : j ∈ setJob (setJob s.jobs j0.id
          (fun x => { x with status := JStatus.running, updatedAt := now }))
          j0.id g := by
        have := mem_setJob hm1 j0.id g
        rwa [if_neg hid] at this
      refine ⟨⟨j, by rw [hcs]; exact hm1, rfl, Or.inl rfl,
        j, by rw [hshape]; exact hm2, rfl, Or.inl rfl⟩,
        fun _ => ⟨by rw [hshape]; exact hm2, ?_⟩⟩
      intro hse
      injection hse with hse
      exact hid (by rw [hse])

/-- Witness for C2 at a concrete failed job: it is left untouched by the
step and is not the selected job. -/
theorem C2_job_status_monotone_witness :
    (JobR.mk 1 "download_video" (some "v") JStatus.failed (some "boom") 0)
        ∈ (process_next_job (fun _ => (HandlerResult.ok, id)) 0
          (WorkerState.mk
            [JobR.mk 1 "download_video" (some "v") JStatus.failed (some "boom") 0]
            [])).jobs
      ∧ selectPending
          [JobR.mk 1 "download_video" (some "v") JStatus.failed (some "boom") 0]
        ≠ some (JobR.mk 1 "download_video" (some "v") JStatus.failed
          (some "boom") 0) :=
  (C2_job_status_monotone (fun _ => (HandlerResult.ok, id)) 0
      (WorkerState.mk
        [JobR.mk 1 "download_video" (some "v") JStatus.failed (some "boom") 0] [])
      (by decide)
      (JobR.mk 1 "download_video" (some "v") JStatus.failed (some "boom") 0)
      (List.mem_singleton.mpr rfl)).2 rfl

/-- Counterexample to the truncation part of claim C1: the Job error
column is declared with length 2048 in app/models.py, but process_next_job
stores the exception text with no truncation (SQLite does not enforce the
declared length), so a 2049-character message is stored whole. -/
theorem C1_error_untruncated_counterexample :
    ((process_next_job
        (fun _ => (HandlerResult.err (String.mk (List.replicate 2049 'x')), id))
        0
        (WorkerState.mk
          [JobR.mk 1 "regenerate_manual_feed" none JStatus.pending none 0]
          [])).jobs.map JobR.error)
      = [some (String.mk (List.replicate 2049 'x'))]
      ∧ 2048 < (String.mk (List.replicate 2049 'x')).length := by
  constructor
  · rfl
  · show 2048 < (List.replicate 2049 'x').length
    rw [List.length_replicate]
    omega

/-- Claim C1 (amended): when the handler of the selected job raises, the
job is marked failed with the exception's message stored in full (the
source does not truncate it); for a download job every Download row
matching the payload's video id is also marked failed with the same
message and a fresh timestamp; every other pending job is untouched, and
whichever job the next loop iteration selects is still driven to done or
failed, so the loop keeps processing. -/
theorem C1_job_failure_handling (oracle : HandlerOracle) (now now2 : Int)
    (s : WorkerState) (j : JobR) (msg : String)
    (eff : List DownloadR → List DownloadR)
    (hn : (s.jobs.map JobR.id).Nodup)
    (hsel : selectPending s.jobs = some j)
    (hres : dispatchResult oracle
        { j with status := JStatus.running, updatedAt := now }
      = (HandlerResult.err msg, eff)) :
    ({ j with status := JStatus.failed, error := some msg, updatedAt := now } : JobR)
        ∈ (process_next_job oracle now s).jobs
      ∧ (j.jobType = "download_video" →
        ∀ d ∈ eff s.downloads, some d.videoId = j.payloadVideoId →
          ({ d with status := "failed", error := some msg, updatedAt := now } : DownloadR)
            ∈ (process_next_job oracle now s).downloads)
      ∧ (∀ j2 ∈ s.jobs, j2 ≠ j → j2.status = JStatus.pending →
        j2 ∈ (process_next_job oracle now s).jobs)
      ∧ (∀ j3, selectPending (process_next_job oracle now s).jobs = some j3 →
        ∃ k ∈ (process_next_job oracle now2 (process_next_job oracle now s)).jobs,
          k.id = j3.id ∧ (k.status = JStatus.done ∨ k.status = JStatus.failed)) := by
  obtain ⟨hjmem, hjpend⟩ := selectPending_some hsel
  have hfind := find?_setJob hn hjmem
    (fun x => { x with status := JStatus.running, updatedAt := now }) rfl
  have hproc : process_next_job oracle now s
      = (if j.jobType = "download_video" then
          WorkerState.mk
            (setJob (setJob s.jobs j.id
                (fun x => { x with status := JStatus.running, updatedAt := now }))
              j.id
              (fun x => { x with status := JStatus.failed, error := some msg, updatedAt := now }))
            ((eff s.downloads).map (fun d =>
              if some d.videoId = j.payloadVideoId then
                { d with status := "failed", error := some msg, updatedAt := now }
              else d))
        else
          WorkerState.mk
            (setJob (setJob s.jobs j.id
                (fun x => { x with status := JStatus.running, updatedAt := now }))
              j.id
              (fun x => { x with status := JStatus.failed, error := some msg, updatedAt := now }))
            (eff s.downloads)) := by
    simp only [process_next_job, hsel, claimStep, finishJob, hfind, hres]
  have hJ : (process_next_job oracle now s).jobs
      = setJob (setJob s.jobs j.id
          (fun x => { x with status := JStatus.running, updatedAt := now }))
        j.id
        (fun x => { x with status := JStatus.failed, error := some msg, updatedAt := now }) := by
    rw [hproc]
    by_cases hdl : j.jobType = "download_video"
    · rw [if_pos hdl]
    · rw [if_neg hdl]
  have hm1 : ({ j with status := JStatus.running, updatedAt := now } : JobR)
      ∈ setJob s.jobs j.id
        (fun x => { x with status := JStatus.running, updatedAt := now }) := by
    have := mem_setJob hjmem j.id
      (fun x => { x with status := JStatus.running, updatedAt := now })
    rwa [if_pos rfl] at this
  refine ⟨?_, ?_, ?_, ?_⟩
  · rw [hJ]
    have := mem_setJob hm1 j.id
      (fun x => { x with status := JStatus.failed, error := some msg, updatedAt := now })
    rwa [if_pos rfl] at this
  · intro hdl d hd hmatch
    rw [hproc, if_pos hdl]
    exact List.mem_map.mpr ⟨d, hd, by rw [if_pos hmatch]⟩
  · intro j2 hj2 hne _
    have hid : ¬(j2.id = j.id) := fun he =>
      hne (List.inj_on_of_nodup_map hn hj2 hjmem he)
    rw [hJ]
    have h1 := mem_setJob hj2 j.id
      (fun x => { x with status := JStatus.running, updatedAt := now })
    rw [if_neg hid] at h1
    have h2 := mem_setJob h1 j.id
      (fun x => { x with status := JStatus.failed, error := some msg, updatedAt := now })
    rwa [if_neg hid] at h2
  · intro j3 hsel3
    have hn2 : ((process_next_job oracle now s).jobs.map JobR.id).Nodup := by
      have e1 := setJob_ids
        (setJob s.jobs j.id
          (fun x => { x with status := JStatus.running, updatedAt := now }))
        j.id
        (fun x => { x with status := JStatus.failed, error := some msg, updatedAt := now })
        (fun x => rfl)
      have e2 := setJob_ids s.jobs j.id
        (fun x => { x with status := JStatus.running, updatedAt := now })
        (fun x => rfl)
      rw [hJ, e1, e2]
      exact hn
    exact process_selected_finishes oracle now2 _ hn2 j3 hsel3

/-- Witness for C1's amended theorem: a failing download handler marks the
job and the matching Download row failed with the same message. -/
theorem C1_job_failure_handling_witness :
    (JobR.mk 1 "download_video" (some "v") JStatus.failed (some "boom") 0)
        ∈ (process_next_job (fun _ => (HandlerResult.err "boom", id)) 0
          (WorkerState.mk
            [JobR.mk 1 "download_video" (some "v") JStatus.pending none (-3)]
            [DownloadR.mk "v" "running" none (-2)])).jobs
      ∧ (DownloadR.mk "v" "failed" (some "boom") 0)
        ∈ (process_next_job (fun _ => (HandlerResult.err "boom", id)) 0
          (WorkerState.mk
            [JobR.mk 1 "download_video" (some "v") JStatus.pending none (-3)]
            [DownloadR.mk "v" "running" none (-2)])).downloads := by
  have h := C1_job_failure_handling (fun _ => (HandlerResult.err "boom", id))
    0 0
    (WorkerState.mk
      [JobR.mk 1 "download_video" (some "v") JStatus.pending none (-3)]
      [DownloadR.mk "v" "running" none (-2)])
    (JobR.mk 1 "download_video" (some "v") JStatus.pending none (-3))
    "boom" id (by decide) rfl rfl
  exact ⟨h.1, h.2.1 rfl (DownloadR.mk "v" "running" none (-2))
    (List.mem_singleton.mpr rfl) rfl⟩

end Podsync
